import Mathlib

/-!
Verification of the innkeeper quest-validation engine.

This file gives a shallow embedding of the validation core of the repository:

* `src/lib/kraxel-api.ts` — the retrying data-client request loop;
* `src/lib/kraxel-validation.ts` — the four primitive validators
  (`swappedFor`, `minValueSwap`, `firstNBuyers`, `holdsToken`) and the
  `and`/`or` combinators;
* `src/lib/quest/validator.ts` — the per-quest validation runner and its
  backoff scheduling.

Conventions of the embedding:

* JavaScript string fields that may be absent/falsy (`tx_id`, `user_address`)
  are modelled as `String`, with the empty string playing the role of a
  missing/falsy value (exactly the values on which the source's truthiness
  tests `match.tx_id && ...` fail for strings).
* Numeric amounts that the source parses from strings with `parseFloat` are
  modelled directly as rationals; timestamps (`Date.getTime()` values and
  `Date.now()`) are modelled as integers.
* Fallible operations (network fetches, store reads) are modelled as
  `Except String` values; a `try`/`catch` in the source becomes a `match` on
  the `Except`.
-/

namespace Innkeeper

/-- One swap leg, `SwapDetail` from `kraxel-api.ts`.  The amounts are the
`parseFloat`-parsed values of the source's `in_amount`/`out_amount` strings. -/
structure SwapDetail where
  in_asset : String
  in_amount : ℚ
  out_asset : String
  out_amount : ℚ
deriving Repr, DecidableEq

/-- A transaction record, `Transaction` from `kraxel-api.ts`.  `block_time`
is the epoch value of the ISO timestamp (`new Date(t).getTime()`), and the
empty string models a missing `tx_id`/`user_address`. -/
structure Transaction where
  tx_id : String
  user_address : String
  block_height : Int
  block_time : Int
  swap_details : Option (List SwapDetail)
deriving Repr, DecidableEq

/-- Result of executing a validation query, `ValidationResult` from
`kraxel-validation.ts` (the `metadata` field carries no semantics and is
omitted). -/
structure ValidationResult where
  satisfied : Bool
  «matches» : List Transaction
deriving Repr, DecidableEq

/-! ### Combinators (`combinators.and` / `combinators.or`, kraxel-validation.ts 47-132)

Both combinators first execute their two operands and then combine the two
`ValidationResult`s; the combination step is the pure function embedded here.
-/

/-- Pairing test used by `combinators.and` (kraxel-validation.ts lines 59-64):
`(leftMatch.tx_id && rightMatch.tx_id && leftMatch.tx_id === rightMatch.tx_id) ||
 (leftMatch.user_address && rightMatch.user_address && leftMatch.user_address === rightMatch.user_address)`. -/
def andPair (l r : Transaction) : Bool :=
  (l.tx_id != "" && r.tx_id != "" && l.tx_id == r.tx_id) ||
  (l.user_address != "" && r.user_address != "" && l.user_address == r.user_address)

/-- Combination step of `combinators.and` (kraxel-validation.ts lines 51-76):
keeps the left matches that pair with some right match, and is satisfied when
both sides are satisfied and the intersection is non-empty. -/
def andCombine (leftResult rightResult : ValidationResult) : ValidationResult :=
  let combinedMatches :=
    leftResult.matches.filter fun lm => rightResult.matches.any fun rm => andPair lm rm
  { satisfied := leftResult.satisfied && rightResult.satisfied && decide (0 < combinedMatches.length)
    «matches» := combinedMatches }

/-- The `addUniqueMatches` closure of `combinators.or` (kraxel-validation.ts
lines 92-99): walks the given matches, pushing a match and recording its id
only when the match has a truthy `tx_id` that was not seen before.  The state
is the pair `(seenTxIds, combinedMatches)`. -/
def addUniqueMatches : List String × List Transaction → List Transaction → List String × List Transaction
  | sa, [] => sa
  | (seen, acc), m :: rest =>
    if m.tx_id != "" && !(decide (m.tx_id ∈ seen)) then
      addUniqueMatches (seen ++ [m.tx_id], acc ++ [m]) rest
    else
      addUniqueMatches (seen, acc) rest

/-- Combination step of `combinators.or` (kraxel-validation.ts lines 81-114):
adds the left then the right matches through `addUniqueMatches` and is
satisfied when either side is. -/
def orCombine (leftResult rightResult : ValidationResult) : ValidationResult :=
  let p := addUniqueMatches (addUniqueMatches ([], []) leftResult.matches) rightResult.matches
  { satisfied := leftResult.satisfied || rightResult.satisfied
    «matches» := p.2 }

/-! ### Concrete transactions used as test inputs -/

/-- Transaction with id `a`, owned by address `u`. -/
def txA : Transaction := { tx_id := "a", user_address := "u", block_height := 1, block_time := 0, swap_details := none }

/-- Transaction with id `b`, owned by the same address `u` as `txA`. -/
def txB : Transaction := { tx_id := "b", user_address := "u", block_height := 2, block_time := 0, swap_details := none }

/-- Transaction lacking a `tx_id` (the empty string is JS-falsy). -/
def txNoId : Transaction := { tx_id := "", user_address := "u", block_height := 3, block_time := 0, swap_details := none }

/-! ### Claim C1 — the `and` combinator -/

/-- C1 counterexample: two matches with distinct non-empty `tx_id`s that share a
`user_address` ARE paired by `combinators.and` (the source tests the
`user_address` clause unconditionally, not only when a `tx_id` is missing), so
the intersection is non-empty and the combined query is satisfied. -/
theorem and_pairs_distinct_txids_by_address :
    txA.tx_id ≠ txB.tx_id ∧ txA.tx_id ≠ "" ∧ txB.tx_id ≠ "" ∧
    (andCombine ⟨true, [txA]⟩ ⟨true, [txB]⟩).matches = [txA] ∧
    (andCombine ⟨true, [txA]⟩ ⟨true, [txB]⟩).satisfied = true := by
  decide

/-- C1 (amended): `and(L,R)` keeps exactly the matches of `L` that agree with
some match of `R` on a non-empty `tx_id` OR on a non-empty `user_address` (the
two clauses are independent disjuncts: address equality pairs two transactions
even when both carry distinct non-empty `tx_id`s), and `satisfied` holds iff
both operands are satisfied and the intersection is non-empty. -/
theorem and_combinator_spec (L R : ValidationResult) (t : Transaction) :
    (t ∈ (andCombine L R).matches ↔
      t ∈ L.matches ∧ ∃ r ∈ R.matches,
        (t.tx_id ≠ "" ∧ r.tx_id ≠ "" ∧ t.tx_id = r.tx_id) ∨
        (t.user_address ≠ "" ∧ r.user_address ≠ "" ∧ t.user_address = r.user_address)) ∧
    ((andCombine L R).satisfied = true ↔
      L.satisfied = true ∧ R.satisfied = true ∧ (andCombine L R).matches ≠ []) := by
  constructor
  · simp [andCombine, List.mem_filter, List.any_eq_true, andPair, bne_iff_ne,
      and_assoc]
  · simp [andCombine, List.length_pos, Bool.and_eq_true, decide_eq_true_iff, and_assoc]

/-- Closed instantiation of `and_combinator_spec`. -/
theorem and_combinator_spec_witness :
    txA ∈ (andCombine ⟨true, [txA]⟩ ⟨true, [txB]⟩).matches :=
  ((and_combinator_spec ⟨true, [txA]⟩ ⟨true, [txB]⟩ txA).1).mpr
    ⟨by simp, txB, by simp, Or.inr ⟨by decide, by decide, rfl⟩⟩

/-! ### Claim C2 — the `or` combinator -/

/-- C2 counterexample: a match lacking a `tx_id` is DROPPED by `combinators.or`
(the source pushes a match only when `match.tx_id` is truthy), so an id-less
entry is never kept in the combined matches. -/
theorem or_drops_idless_matches :
    txNoId.tx_id = "" ∧
    (orCombine ⟨true, [txNoId]⟩ ⟨false, []⟩).matches = [] ∧
    (orCombine ⟨true, [txNoId]⟩ ⟨false, []⟩).satisfied = true := by
  decide

/-- Relation between the `seenTxIds` set and the accumulated matches inside
`addUniqueMatches`: the seen ids are exactly the ids of the accumulator. -/
def TxIdSeen (seen : List String) (acc : List Transaction) : Prop :=
  ∀ s : String, s ∈ seen ↔ ∃ t ∈ acc, t.tx_id = s

/-- Invariant of the `addUniqueMatches` loop: the seen ids stay in sync with
the accumulator, accumulated matches keep non-empty pairwise-distinct ids and
come from the initial accumulator or the input, the seen set only grows, and
every input match with a non-empty id ends up represented in the seen set. -/
theorem addUniqueMatches_spec (ms : List Transaction) :
    ∀ (seen : List String) (acc : List Transaction),
      TxIdSeen seen acc →
      (∀ t ∈ acc, t.tx_id ≠ "") →
      acc.Pairwise (fun a b => a.tx_id ≠ b.tx_id) →
      TxIdSeen (addUniqueMatches (seen, acc) ms).1 (addUniqueMatches (seen, acc) ms).2 ∧
      (∀ t ∈ (addUniqueMatches (seen, acc) ms).2, t.tx_id ≠ "") ∧
      (addUniqueMatches (seen, acc) ms).2.Pairwise (fun a b => a.tx_id ≠ b.tx_id) ∧
      (∀ t ∈ (addUniqueMatches (seen, acc) ms).2, t ∈ acc ∨ t ∈ ms) ∧
      (∀ s ∈ seen, s ∈ (addUniqueMatches (seen, acc) ms).1) ∧
      (∀ t ∈ ms, t.tx_id ≠ "" → t.tx_id ∈ (addUniqueMatches (seen, acc) ms).1) := by
  induction ms with
  | nil =>
    intro seen acc h1 h2 h3
    exact ⟨h1, h2, h3, fun t ht => Or.inl ht, fun s hs => hs, by simp⟩
  | cons m rest ih =>
    intro seen acc h1 h2 h3
    have heq : addUniqueMatches (seen, acc) (m :: rest) =
        if m.tx_id != "" && !(decide (m.tx_id ∈ seen)) then
          addUniqueMatches (seen ++ [m.tx_id], acc ++ [m]) rest
        else addUniqueMatches (seen, acc) rest := rfl
    rw [heq]
    split_ifs with hc
    · have hc' : ¬m.tx_id = "" ∧ m.tx_id ∉ seen := by simpa using hc
      obtain ⟨hmne, hnotseen⟩ := hc'
      have h1' : TxIdSeen (seen ++ [m.tx_id]) (acc ++ [m]) := by
        intro s
        constructor
        · intro hs
          rcases List.mem_append.mp hs with hs | hs
          · obtain ⟨t, ht, hts⟩ := (h1 s).mp hs
            exact ⟨t, List.mem_append.mpr (Or.inl ht), hts⟩
          · exact ⟨m, List.mem_append.mpr (Or.inr (List.mem_singleton.mpr rfl)),
              (List.mem_singleton.mp hs).symm⟩
        · rintro ⟨t, ht, hts⟩
          rcases List.mem_append.mp ht with ht | ht
          · exact List.mem_append.mpr (Or.inl ((h1 s).mpr ⟨t, ht, hts⟩))
          · rw [List.mem_singleton.mp ht] at hts
            exact List.mem_append.mpr (Or.inr (List.mem_singleton.mpr hts.symm))
      have h2' : ∀ t ∈ acc ++ [m], t.tx_id ≠ "" := by
        intro t ht
        rcases List.mem_append.mp ht with h | h
        · exact h2 t h
        · rw [List.mem_singleton.mp h]; exact hmne
      have h3' : (acc ++ [m]).Pairwise (fun a b => a.tx_id ≠ b.tx_id) := by
        rw [List.pairwise_append]
        refine ⟨h3, List.pairwise_singleton _ _, ?_⟩
        intro a ha b hb
        rw [List.mem_singleton.mp hb]
        intro hEq
        apply hnotseen
        rw [← hEq]
        exact (h1 a.tx_id).mpr ⟨a, ha, rfl⟩
      obtain ⟨i1, i2, i3, i4, i5, i6⟩ := ih (seen ++ [m.tx_id]) (acc ++ [m]) h1' h2' h3'
      refine ⟨i1, i2, i3, ?_, ?_, ?_⟩
      · intro t ht
        rcases i4 t ht with h | h
        · rcases List.mem_append.mp h with h | h
          · exact Or.inl h
          · exact Or.inr (by rw [List.mem_singleton.mp h]; exact List.mem_cons_self m rest)
        · exact Or.inr (List.mem_cons_of_mem m h)
      · intro s hs
        exact i5 s (List.mem_append.mpr (Or.inl hs))
      · intro t ht htne
        rcases List.mem_cons.mp ht with h | h
        · rw [h]
          exact i5 m.tx_id (List.mem_append.mpr (Or.inr (List.mem_singleton.mpr rfl)))
        · exact i6 t h htne
    · have hsplit : m.tx_id = "" ∨ m.tx_id ∈ seen := by
        have hc' : ¬(¬m.tx_id = "" ∧ m.tx_id ∉ seen) := by
          intro hn
          exact hc (by simp [hn.1, hn.2])
        tauto
      obtain ⟨i1, i2, i3, i4, i5, i6⟩ := ih seen acc h1 h2 h3
      refine ⟨i1, i2, i3, ?_, i5, ?_⟩
      · intro t ht
        rcases i4 t ht with h | h
        · exact Or.inl h
        · exact Or.inr (List.mem_cons_of_mem m h)
      · intro t ht htne
        rcases List.mem_cons.mp ht with h | h
        · rcases hsplit with he | hm
          · exact absurd (h ▸ he) (h ▸ htne)
          · rw [h]; exact i5 m.tx_id hm
        · exact i6 t h htne

/-- C2 (amended): `or(L,R)` is satisfied iff either operand is; its matches are
pairwise distinct in `tx_id`, each carries a non-empty `tx_id` and comes from
one of the operands, and every operand match with a non-empty `tx_id` is
represented in the result — matches lacking a `tx_id` are dropped, not kept. -/
theorem or_combinator_spec (L R : ValidationResult) :
    (orCombine L R).satisfied = (L.satisfied || R.satisfied) ∧
    (orCombine L R).matches.Pairwise (fun a b => a.tx_id ≠ b.tx_id) ∧
    (∀ t ∈ (orCombine L R).matches, t.tx_id ≠ "" ∧ (t ∈ L.matches ∨ t ∈ R.matches)) ∧
    (∀ t, (t ∈ L.matches ∨ t ∈ R.matches) → t.tx_id ≠ "" →
      ∃ u ∈ (orCombine L R).matches, u.tx_id = t.tx_id) := by
  obtain ⟨a1, b1, c1, d1, e1, f1⟩ :=
    addUniqueMatches_spec L.matches [] [] (by intro s; simp) (by simp) (by simp)
  obtain ⟨a2, b2, c2, d2, e2, f2⟩ :=
    addUniqueMatches_spec R.matches (addUniqueMatches ([], []) L.matches).1
      (addUniqueMatches ([], []) L.matches).2 a1 b1 c1
  refine ⟨rfl, c2, ?_, ?_⟩
  · intro t ht
    refine ⟨b2 t ht, ?_⟩
    rcases d2 t ht with h | h
    · rcases d1 t h with h0 | h0
      · exact absurd h0 (List.not_mem_nil t)
      · exact Or.inl h0
    · exact Or.inr h
  · intro t ht htne
    have hseen : t.tx_id ∈
        (addUniqueMatches (addUniqueMatches ([], []) L.matches) R.matches).1 := by
      rcases ht with h | h
      · exact e2 _ (f1 t h htne)
      · exact f2 t h htne
    exact (a2 t.tx_id).mp hseen

/-- Closed instantiation of `or_combinator_spec`. -/
theorem or_combinator_spec_witness :
    (orCombine ⟨true, [txA]⟩ ⟨false, [txB]⟩).satisfied = (true || false) :=
  (or_combinator_spec ⟨true, [txA]⟩ ⟨false, [txB]⟩).1

/-! ### Claim C3 — `firstNBuyers` candidate selection (kraxel-validation.ts 340-375) -/

/-- Sort comparator of `firstNBuyers` (kraxel-validation.ts lines 341-348):
ascending `block_height`, ties broken by ascending `block_time`.  `txLe a b`
holds when `a` need not be placed after `b`. -/
def txLe (a b : Transaction) : Bool :=
  decide (a.block_height < b.block_height ∨
    (a.block_height = b.block_height ∧ a.block_time ≤ b.block_time))

/-- Stable insertion of a transaction into an already-sorted list: `a` is
placed before the first element `b` with `txLe a b`. -/
def insertTx (a : Transaction) : List Transaction → List Transaction
  | [] => [a]
  | b :: l => if txLe a b then a :: b :: l else b :: insertTx a l

/-- Stable sort by `(block_height asc, block_time asc)`, modelling the
source's `filteredSwaps.sort(...)` (JavaScript array sort is stable). -/
def sortTx : List Transaction → List Transaction
  | [] => []
  | a :: l => insertTx a (sortTx l)

/-- First-buyer collection loop of `firstNBuyers` (kraxel-validation.ts lines
351-363): walks the sorted candidates, pushing the first transaction of each
new non-empty `user_address`, and breaks right after the push makes the buyer
list reach length `n`. -/
def collectFirstNBuyers (n : Nat) : List Transaction → List String → List Transaction → List Transaction
  | [], _, buyers => buyers
  | t :: rest, seen, buyers =>
    if t.user_address != "" && !(decide (t.user_address ∈ seen)) then
      if n ≤ buyers.length + 1 then buyers ++ [t]
      else collectFirstNBuyers n rest (seen ++ [t.user_address]) (buyers ++ [t])
    else collectFirstNBuyers n rest seen buyers

/-- Selection core of `firstNBuyers` over an already-fetched candidate list
(kraxel-validation.ts lines 340-375): sort chronologically, collect the first
occurrence per unique address up to `n`; `satisfied = count ≥ n`. -/
def firstNBuyersSelect (n : Nat) (candidates : List Transaction) : ValidationResult :=
  let buyers := collectFirstNBuyers n (sortTx candidates) [] []
  ⟨decide (n ≤ buyers.length), buyers⟩

/-- First swap of address `X`, at block height 10. -/
def txX1 : Transaction := { tx_id := "x1", user_address := "X", block_height := 10, block_time := 0, swap_details := none }

/-- Second swap of address `X`, also at block height 10 and the same time. -/
def txX2 : Transaction := { tx_id := "x2", user_address := "X", block_height := 10, block_time := 0, swap_details := none }

/-- Swap of address `Y`, at block height 20. -/
def txY : Transaction := { tx_id := "y1", user_address := "Y", block_height := 20, block_time := 0, swap_details := none }

/-- C3 counterexample: with `n = 0` the source pushes the first valid candidate
BEFORE testing `firstNBuyers.length >= n`, so it returns one match — more than
`n` — and the claim "never returns more than n matches" fails at `n = 0`. -/
theorem firstNBuyers_zero_returns_one_match :
    (firstNBuyersSelect 0 [txX1]).matches.length = 1 ∧
    ¬((firstNBuyersSelect 0 [txX1]).matches.length ≤ 0) := by
  decide

/-- Invariant of the collection loop: if the accumulated buyers have distinct
non-empty addresses all recorded in `seen`, and there is still room
(`buyers.length < n`), the loop returns at most `n` buyers with pairwise
distinct addresses. -/
theorem collectFirstNBuyers_spec (n : Nat) (ms : List Transaction) :
    ∀ (seen : List String) (buyers : List Transaction),
      (∀ t ∈ buyers, t.user_address ∈ seen ∧ t.user_address ≠ "") →
      (buyers.map (fun t => t.user_address)).Nodup →
      buyers.length < n →
      (collectFirstNBuyers n ms seen buyers).length ≤ n ∧
      ((collectFirstNBuyers n ms seen buyers).map (fun t => t.user_address)).Nodup := by
  induction ms with
  | nil =>
    intro seen buyers _ h2 h3
    exact ⟨Nat.le_of_lt h3, h2⟩
  | cons t rest ih =>
    intro seen buyers h1 h2 h3
    have heq : collectFirstNBuyers n (t :: rest) seen buyers =
        if t.user_address != "" && !(decide (t.user_address ∈ seen)) then
          if n ≤ buyers.length + 1 then buyers ++ [t]
          else collectFirstNBuyers n rest (seen ++ [t.user_address]) (buyers ++ [t])
        else collectFirstNBuyers n rest seen buyers := rfl
    rw [heq]
    split_ifs with hc hstop
    · have hc' : ¬t.user_address = "" ∧ t.user_address ∉ seen := by simpa using hc
      constructor
      · simpa using Nat.succ_le_of_lt h3
      · rw [List.map_append, List.nodup_append]
        refine ⟨h2, List.nodup_singleton _, ?_⟩
        intro a ha hb
        rw [List.mem_singleton.mp hb] at ha
        obtain ⟨u, hu, hua⟩ := List.mem_map.mp ha
        have hua' : u.user_address = t.user_address := hua
        exact hc'.2 (hua' ▸ (h1 u hu).1)
    · have hc' : ¬t.user_address = "" ∧ t.user_address ∉ seen := by simpa using hc
      apply ih (seen ++ [t.user_address]) (buyers ++ [t])
      · intro u hu
        rcases List.mem_append.mp hu with h | h
        · exact ⟨List.mem_append.mpr (Or.inl (h1 u h).1), (h1 u h).2⟩
        · rw [List.mem_singleton.mp h]
          exact ⟨List.mem_append.mpr (Or.inr (List.mem_singleton.mpr rfl)), hc'.1⟩
      · rw [List.map_append, List.nodup_append]
        refine ⟨h2, List.nodup_singleton _, ?_⟩
        intro a ha hb
        rw [List.mem_singleton.mp hb] at ha
        obtain ⟨u, hu, hua⟩ := List.mem_map.mp ha
        have hua' : u.user_address = t.user_address := hua
        exact hc'.2 (hua' ▸ (h1 u hu).1)
      · simpa using Nat.lt_of_not_le hstop
    · exact ih seen buyers h1 h2 h3

/-- C3 (amended): for every requested `n ≥ 1` and candidate list,
`firstNBuyers` returns at most `n` matches with pairwise-distinct addresses,
`satisfied` holds iff `n` addresses were collected, and on block heights
`[10,10,20]` with addresses `[X,X,Y]` and `n = 2` it returns exactly X's
first transaction followed by Y's.  (The bound fails only at `n = 0`, see the
counterexample.) -/
theorem firstNBuyers_selection_spec (n : Nat) (hn : 1 ≤ n) (candidates : List Transaction) :
    (firstNBuyersSelect n candidates).matches.length ≤ n ∧
    ((firstNBuyersSelect n candidates).matches.map (fun t => t.user_address)).Nodup ∧
    ((firstNBuyersSelect n candidates).satisfied = true ↔
      n ≤ (firstNBuyersSelect n candidates).matches.length) ∧
    firstNBuyersSelect 2 [txX1, txX2, txY] = ⟨true, [txX1, txY]⟩ := by
  obtain ⟨hl, hd⟩ :=
    collectFirstNBuyers_spec n (sortTx candidates) [] [] (by simp) (by simp) hn
  exact ⟨hl, hd, by simp [firstNBuyersSelect], by decide⟩

/-- Closed instantiation of `firstNBuyers_selection_spec`. -/
theorem firstNBuyers_selection_spec_witness :
    (firstNBuyersSelect 1 [txX1]).matches.length ≤ 1 :=
  (firstNBuyers_selection_spec 1 (by decide) [txX1]).1

/-! ### Claim C5 — `swappedFor` (kraxel-validation.ts 166-226) -/

/-- Characters before the first `::` separator. -/
def takeBeforeSep : List Char → List Char
  | [] => []
  | ':' :: ':' :: _ => []
  | c :: rest => c :: takeBeforeSep rest

/-- Everything before the first `::` of an asset identifier, modelling the
source's `detail.out_asset.split('::')[0]`. -/
def stripSubToken (s : String) : String := ⟨takeBeforeSep s.data⟩

/-- Filter predicate of `swappedFor` (kraxel-validation.ts lines 198-202): the
transaction matches iff the LAST leg of its `swap_details` has an out-asset
identifier that, stripped of any `::` sub-token suffix, equals the token
variant under test. -/
def lastLegMatches (variant : String) (t : Transaction) : Bool :=
  match t.swap_details with
  | none => false
  | some legs =>
    match legs.getLast? with
    | none => false
    | some d => stripSubToken d.out_asset == variant

/-- Variant loop of `swappedFor` (kraxel-validation.ts lines 188-208): fetch
swaps for each token variant in order, filter by `lastLegMatches`, and stop at
the first variant yielding at least one match.  A fetch failure aborts the
loop, to be caught by the surrounding `try`. -/
def swappedForSearch (fetch : String → Except String (List Transaction)) :
    List String → Except String (List Transaction)
  | [] => Except.ok []
  | v :: rest =>
    match fetch v with
    | Except.error e => Except.error e
    | Except.ok data =>
      let m := data.filter (lastLegMatches v)
      if m.isEmpty then swappedForSearch fetch rest else Except.ok m

/-- The `execute` body of `swappedFor` with its `try`/`catch`
(kraxel-validation.ts lines 171-224): any thrown error yields
`{satisfied: false, matches: []}`; otherwise `satisfied = matches.length > 0`. -/
def swappedForExecute (variants : List String)
    (fetch : String → Except String (List Transaction)) : ValidationResult :=
  match swappedForSearch fetch variants with
  | Except.ok m => ⟨!m.isEmpty, m⟩
  | Except.error _ => ⟨false, []⟩

/-- Unfolding of the matching test into its three conditions. -/
theorem lastLegMatches_iff (v : String) (t : Transaction) :
    lastLegMatches v t = true ↔
      ∃ legs d, t.swap_details = some legs ∧ legs.getLast? = some d ∧
        stripSubToken d.out_asset = v := by
  unfold lastLegMatches
  cases hsd : t.swap_details with
  | none => simp [hsd]
  | some legs =>
    cases hg : legs.getLast? with
    | none => simp [hg]
    | some d => simp [hg, beq_iff_eq]

/-- Case analysis of the variant loop under always-succeeding fetches: either
no variant yields a match and the loop returns the empty list, or the variant
list splits around a FIRST variant whose filtered fetch is non-empty, and that
filtered list is returned as-is (no union across variants). -/
theorem swappedForSearch_cases (f : String → List Transaction) (variants : List String) :
    (swappedForSearch (fun v => Except.ok (f v)) variants = Except.ok [] ∧
      ∀ v ∈ variants, (f v).filter (lastLegMatches v) = []) ∨
    (∃ pre v post, variants = pre ++ v :: post ∧
      (∀ u ∈ pre, (f u).filter (lastLegMatches u) = []) ∧
      (f v).filter (lastLegMatches v) ≠ [] ∧
      swappedForSearch (fun v => Except.ok (f v)) variants =
        Except.ok ((f v).filter (lastLegMatches v))) := by
  induction variants with
  | nil => exact Or.inl ⟨rfl, by simp⟩
  | cons v rest ih =>
    by_cases hv : ((f v).filter (lastLegMatches v)).isEmpty = true
    · have hv' : (f v).filter (lastLegMatches v) = [] := by
        simpa using hv
      have heq : swappedForSearch (fun v => Except.ok (f v)) (v :: rest) =
          swappedForSearch (fun v => Except.ok (f v)) rest := by
        simp [swappedForSearch, hv]
      rcases ih with ⟨h1, h2⟩ | ⟨pre, w, post, hsplit, hpre, hne, hres⟩
      · refine Or.inl ⟨heq ▸ h1, ?_⟩
        intro u hu
        rcases List.mem_cons.mp hu with h | h
        · rw [h]; exact hv'
        · exact h2 u h
      · refine Or.inr ⟨v :: pre, w, post, by rw [hsplit, List.cons_append], ?_, hne, heq ▸ hres⟩
        intro u hu
        rcases List.mem_cons.mp hu with h | h
        · rw [h]; exact hv'
        · exact hpre u h
    · have hv' : (f v).filter (lastLegMatches v) ≠ [] := by
        simpa using hv
      have heq : swappedForSearch (fun v => Except.ok (f v)) (v :: rest) =
          Except.ok ((f v).filter (lastLegMatches v)) := by
        simp [swappedForSearch, hv]
      exact Or.inr ⟨[], v, rest, rfl, by simp, hv', heq⟩

/-- C5: with all fetches succeeding, `swappedFor` is satisfied iff its match
list is non-empty; the matches are exactly the filtered fetch of the FIRST
variant yielding a non-empty filter (all earlier variants filter to empty, and
no union across variants is taken); and every returned match owes its
membership to its last swap leg, whose stripped out-asset equals the variant
under test. -/
theorem swappedFor_spec (variants : List String) (f : String → List Transaction) :
    ((swappedForExecute variants fun v => Except.ok (f v)).satisfied = true ↔
      (swappedForExecute variants fun v => Except.ok (f v)).matches ≠ []) ∧
    ((swappedForExecute variants fun v => Except.ok (f v)).matches = [] ∧
        (∀ v ∈ variants, (f v).filter (lastLegMatches v) = []) ∨
      ∃ pre v post, variants = pre ++ v :: post ∧
        (∀ u ∈ pre, (f u).filter (lastLegMatches u) = []) ∧
        (swappedForExecute variants fun v => Except.ok (f v)).matches =
          (f v).filter (lastLegMatches v) ∧
        (swappedForExecute variants fun v => Except.ok (f v)).matches ≠ []) ∧
    (∀ t ∈ (swappedForExecute variants fun v => Except.ok (f v)).matches,
      ∃ v ∈ variants, t ∈ f v ∧
        ∃ legs d, t.swap_details = some legs ∧ legs.getLast? = some d ∧
          stripSubToken d.out_asset = v) := by
  rcases swappedForSearch_cases f variants with ⟨h1, h2⟩ | ⟨pre, v, post, hsplit, hpre, hne, hres⟩
  · refine ⟨?_, Or.inl ⟨?_, h2⟩, ?_⟩
    · simp [swappedForExecute, h1]
    · simp [swappedForExecute, h1]
    · intro t ht
      simp [swappedForExecute, h1] at ht
  · have hm : (swappedForExecute variants fun v => Except.ok (f v)).matches =
        (f v).filter (lastLegMatches v) := by
      simp [swappedForExecute, hres]
    refine ⟨?_, Or.inr ⟨pre, v, post, hsplit, hpre, hm, by rw [hm]; exact hne⟩, ?_⟩
    · simp [swappedForExecute, hres, List.isEmpty_iff]
    · intro t ht
      rw [hm] at ht
      obtain ⟨htf, htl⟩ := List.mem_filter.mp ht
      refine ⟨v, ?_, htf, (lastLegMatches_iff v t).mp htl⟩
      rw [hsplit]
      exact List.mem_append.mpr (Or.inr (List.mem_cons_self v post))

/-- Closed instantiation of `swappedFor_spec`. -/
theorem swappedFor_spec_witness :
    (swappedForExecute ["T"] fun _ => Except.ok ([] : List Transaction)).satisfied = true ↔
    (swappedForExecute ["T"] fun _ => Except.ok ([] : List Transaction)).matches ≠ [] :=
  (swappedFor_spec ["T"] fun _ => ([] : List Transaction)).1

/-! ### Claim C6 — `minValueSwap` (kraxel-validation.ts 234-285) -/

/-- Price lookup with the source's `priceData[asset] || 0` default: a missing
price counts as 0 (and an explicit price of 0 stays 0). -/
def priceOf (prices : List (String × ℚ)) (asset : String) : ℚ :=
  (prices.lookup asset).getD 0

/-- USD value of one swap leg (kraxel-validation.ts lines 256-266): the larger
of `in_amount * in_price` and `out_amount * out_price`. -/
def legValue (prices : List (String × ℚ)) (d : SwapDetail) : ℚ :=
  max (d.in_amount * priceOf prices d.in_asset) (d.out_amount * priceOf prices d.out_asset)

/-- Total USD value of a transaction: the sum over its swap legs of
`legValue` (a missing `swap_details` means no legs, value 0). -/
def swapValue (prices : List (String × ℚ)) (t : Transaction) : ℚ :=
  ((t.swap_details.getD []).map (legValue prices)).sum

/-- The `execute` body of `minValueSwap` with its `try`/`catch`
(kraxel-validation.ts lines 242-283): fetch the transactions and the latest
price table, keep the transactions whose total value reaches the threshold;
any thrown error yields `{satisfied: false, matches: []}`. -/
def minValueSwapExecute (minValueUsd : ℚ)
    (txsE : Except String (List Transaction))
    (pricesE : Except String (List (String × ℚ))) : ValidationResult :=
  match txsE with
  | Except.error _ => ⟨false, []⟩
  | Except.ok txs =>
    match pricesE with
    | Except.error _ => ⟨false, []⟩
    | Except.ok prices =>
      let m := txs.filter fun t => decide (minValueUsd ≤ swapValue prices t)
      ⟨!m.isEmpty, m⟩

/-- C6: `minValueSwap` keeps exactly the transactions whose summed leg value
(each leg contributing `max(in_amount * in_price, out_amount * out_price)`,
with missing prices counting as 0) reaches the threshold; a transaction all of
whose legs have unknown prices on both sides has value 0 and is excluded for
every positive threshold. -/
theorem minValueSwap_spec (minValueUsd : ℚ) (txs : List Transaction)
    (prices : List (String × ℚ)) :
    (∀ t, t ∈ (minValueSwapExecute minValueUsd (Except.ok txs) (Except.ok prices)).matches ↔
      t ∈ txs ∧ minValueUsd ≤ swapValue prices t) ∧
    (∀ t : Transaction, (∀ d ∈ t.swap_details.getD [], priceOf prices d.in_asset = 0 ∧
        priceOf prices d.out_asset = 0) → swapValue prices t = 0) ∧
    (∀ t ∈ txs, 0 < minValueUsd →
      (∀ d ∈ t.swap_details.getD [], priceOf prices d.in_asset = 0 ∧
        priceOf prices d.out_asset = 0) →
      t ∉ (minValueSwapExecute minValueUsd (Except.ok txs) (Except.ok prices)).matches) := by
  have hzero : ∀ t : Transaction, (∀ d ∈ t.swap_details.getD [], priceOf prices d.in_asset = 0 ∧
      priceOf prices d.out_asset = 0) → swapValue prices t = 0 := by
    intro t h
    unfold swapValue
    apply List.sum_eq_zero
    intro x hx
    obtain ⟨d, hd, hdx⟩ := List.mem_map.mp hx
    obtain ⟨hin, hout⟩ := h d hd
    rw [← hdx]
    simp [legValue, hin, hout]
  have hmem : ∀ t, t ∈ (minValueSwapExecute minValueUsd (Except.ok txs) (Except.ok prices)).matches ↔
      t ∈ txs ∧ minValueUsd ≤ swapValue prices t := by
    intro t
    simp [minValueSwapExecute, List.mem_filter]
  refine ⟨hmem, hzero, ?_⟩
  intro t _ hpos hzp hmemt
  have hle := ((hmem t).mp hmemt).2
  rw [hzero t hzp] at hle
  exact absurd hle (not_le.mpr hpos)

/-- Closed instantiation of `minValueSwap_spec`. -/
theorem minValueSwap_spec_witness :
    txA ∈ (minValueSwapExecute 0 (Except.ok [txA]) (Except.ok [])).matches :=
  ((minValueSwap_spec 0 [txA] []).1 txA).mpr
    ⟨List.mem_singleton.mpr rfl, by norm_num [swapValue, txA]⟩

/-! ### Claim C7 — Data Client retry loop (kraxel-api.ts 93-161) -/

/-- Retry loop of `KraxelAPI.request` (kraxel-api.ts lines 129-157).
`attempts` counts the failed attempts so far and `remaining` is
`maxRetries - attempts`, positive exactly while the `while` guard
`attempts < maxRetries` holds; `f i` is the outcome of the i-th fetch
attempt.  On a failure the source increments `attempts`, rethrows if
`attempts >= maxRetries` (here: `remaining = 0` after the decrement), and
otherwise sleeps `2 ** attempts * 100` milliseconds.  The result records the
request outcome, the backoff delays performed, and the number of attempts. -/
def requestLoop {α : Type} (f : Nat → Except String α) : Nat → Nat → Except String α × List Nat × Nat
  | attempts, 0 => (Except.error "Maximum retries reached", [], attempts)
  | attempts, remaining + 1 =>
    match f attempts with
    | Except.ok a => (Except.ok a, [], attempts + 1)
    | Except.error e =>
      if remaining = 0 then (Except.error e, [], attempts + 1)
      else
        let r := requestLoop f (attempts + 1) remaining
        (r.1, (2 ^ (attempts + 1) * 100) :: r.2.1, r.2.2)

/-- One `KraxelAPI.request` with the default configuration
(`maxRetries = 3`, backoff base 100 ms). -/
def requestModel {α : Type} (f : Nat → Except String α) : Except String α × List Nat × Nat :=
  requestLoop f 0 3

/-- C7: when every attempt throws, the request makes exactly 3 attempts
(the fixed `maxRetries`), sleeps `100 * 2 ^ attempt` milliseconds after each
non-final failed attempt (200 ms then 400 ms), and fails with the error of
the last attempt as its cause. -/
theorem request_retry_spec {α : Type} (f : Nat → Except String α) (e0 e1 e2 : String)
    (h0 : f 0 = Except.error e0) (h1 : f 1 = Except.error e1)
    (h2 : f 2 = Except.error e2) :
    requestModel f = (Except.error e2, [2 ^ 1 * 100, 2 ^ 2 * 100], 3) := by
  simp [requestModel, requestLoop, h0, h1, h2]

/-- Closed instantiation of `request_retry_spec`. -/
theorem request_retry_spec_witness :
    requestModel (fun _ => (Except.error "boom" : Except String Nat)) =
      (Except.error "boom", [2 ^ 1 * 100, 2 ^ 2 * 100], 3) :=
  request_retry_spec (fun _ => Except.error "boom") "boom" "boom" "boom" rfl rfl rfl

/-! ### Claim C10 — the primitives never reject -/

/-- The `execute` body of `firstNBuyers` with its `try`/`catch`
(kraxel-validation.ts lines 301-380): run `swappedFor`; fail closed if it is
unsatisfied; when a positive `minValueUsd` is given, narrow through
`minValueSwap` over the already-fetched matches and fail closed if that is
unsatisfied; finally sort the survivors and collect the first `n` unique
buyers. -/
def firstNBuyersExecute (variants : List String) (n : Nat) (minValueUsd : ℚ)
    (fetch : String → Except String (List Transaction))
    (pricesE : Except String (List (String × ℚ))) : ValidationResult :=
  let swapResult := swappedForExecute variants fetch
  if !swapResult.satisfied then ⟨false, []⟩
  else if 0 < minValueUsd then
    let valueResult := minValueSwapExecute minValueUsd (Except.ok swapResult.matches) pricesE
    if !valueResult.satisfied then ⟨false, []⟩
    else firstNBuyersSelect n valueResult.matches
  else firstNBuyersSelect n swapResult.matches

/-- The `execute` body of `holdsToken` with its `try`/`catch`
(kraxel-validation.ts lines 393-434): try each variant's transfers in order;
the first non-empty transfer list proves holding; a fetch failure aborts the
whole loop (the `catch` is outside it) and yields
`{satisfied: false, matches: []}`. -/
def holdsTokenExecute : List String → (String → Except String (List Transaction)) → ValidationResult
  | [], _ => ⟨false, []⟩
  | v :: rest, fetch =>
    match fetch v with
    | Except.error _ => ⟨false, []⟩
    | Except.ok data => if data.isEmpty then holdsTokenExecute rest fetch else ⟨true, data⟩

/-- C10: each primitive validator resolves (their Lean models are total
functions into `ValidationResult`, mirroring the source's outermost
`try`/`catch`), and under a Data Client that fails every request — retry
exhaustion included — each resolves to `{satisfied: false, matches: []}`
rather than propagating the error. -/
theorem primitives_fail_closed (variants : List String) (msg : String) (n : Nat)
    (minValueUsd : ℚ) (fetch : String → Except String (List Transaction))
    (txsE : Except String (List Transaction))
    (pricesE : Except String (List (String × ℚ)))
    (hfail : ∀ s : String, fetch s = Except.error msg) :
    swappedForExecute variants fetch = ⟨false, []⟩ ∧
    minValueSwapExecute minValueUsd (Except.error msg) pricesE = ⟨false, []⟩ ∧
    minValueSwapExecute minValueUsd txsE (Except.error msg) = ⟨false, []⟩ ∧
    firstNBuyersExecute variants n minValueUsd fetch pricesE = ⟨false, []⟩ ∧
    holdsTokenExecute variants fetch = ⟨false, []⟩ := by
  have hsw : swappedForExecute variants fetch = ⟨false, []⟩ := by
    cases variants with
    | nil => rfl
    | cons v rest => simp [swappedForExecute, swappedForSearch, hfail v]
  refine ⟨hsw, rfl, ?_, ?_, ?_⟩
  · cases txsE <;> rfl
  · simp [firstNBuyersExecute, hsw]
  · cases variants with
    | nil => rfl
    | cons v rest => simp [holdsTokenExecute, hfail v]

/-- Closed instantiation of `primitives_fail_closed`. -/
theorem primitives_fail_closed_witness :
    swappedForExecute ["T"] (fun _ => Except.error "boom") = ⟨false, []⟩ :=
  (primitives_fail_closed ["T"] "boom" 1 0 (fun _ => Except.error "boom")
    (Except.ok []) (Except.ok []) (fun _ => rfl)).1

/-! ### Quest validation runner (`src/lib/quest/validator.ts`) -/

/-- `VALIDATION_FREQUENCY.SUCCESS` (validator.ts line 16): 10 minutes, in
milliseconds. -/
def SUCCESS_INTERVAL : Int := 10 * 60 * 1000

/-- `VALIDATION_FREQUENCY.ERROR` (validator.ts line 15): 15 minutes, in
milliseconds. -/
def ERROR_INTERVAL : Int := 15 * 60 * 1000

/-- Criteria types the dispatch switch supports (validator.ts lines 115-227). -/
def supportedCriteriaTypes : List String :=
  ["swappedFor", "firstNBuyers", "minValueSwap", "holdsToken"]

/-- Dispatch on `criteria.type` (validator.ts lines 115-227): a supported type
runs its primitive validator — which never rejects (see
`primitives_fail_closed`) and resolves to `primResult` — while any other type
throws `Unsupported criteria type: ...` (line 226). -/
def dispatchCriteria (ctype : String) (primResult : ValidationResult) :
    Except String ValidationResult :=
  if supportedCriteriaTypes.contains ctype then Except.ok primResult
  else Except.error ("Unsupported criteria type: " ++ ctype)

/-- Observable effects of validating one quest: upstream Data Client calls
made, validation records created, result rows written, and the final update of
the validation record (status, error message, `nextValidationAt`). -/
structure StepEffects where
  apiCalls : Nat
  recordsCreated : Nat
  resultRows : Nat
  finalStatus : Option String
  finalError : Option String
  finalNextValidationAt : Option Int
deriving Repr, DecidableEq

/-- Skip test of `validateSingleQuest` (validator.ts lines 83-90): skip when
the latest validation record exists, carries a `nextValidationAt`, and that
time is still strictly in the future. -/
def shouldSkip (now : Int) (lastNext : Option (Option Int)) : Bool :=
  match lastNext with
  | some (some t) => decide (now < t)
  | _ => false

/-- One `validateSingleQuest` run (validator.ts lines 79-264), abstracted over
`now`, the latest record's `nextValidationAt` (`lastNext`: outer `Option` for
record existence, inner for the field), the quest's criteria type, the
primitive validator's behaviour (`primApiCalls` upstream calls resolving to
`primResult`), and an optional error thrown during result persistence
(`persistError`, carrying the rows already written before the throw).  When
the skip test fires nothing at all happens.  Otherwise a validation record is
created and the dispatch runs: a thrown error — unsupported criteria type
(before any upstream call) or persistence failure — is caught by the inner
`catch` (lines 243-259) and recorded as `failed` with
`nextValidationAt = now + ERROR_INTERVAL`; a resolved result is recorded
(lines 229-241) as `success`/`failed` according to its `satisfied` flag with
`nextValidationAt = now + SUCCESS_INTERVAL` and one result row per match. -/
def validateSingleQuestModel (now : Int) (lastNext : Option (Option Int))
    (ctype : String) (primApiCalls : Nat) (primResult : ValidationResult)
    (persistError : Option (Nat × String)) : StepEffects :=
  if shouldSkip now lastNext then ⟨0, 0, 0, none, none, none⟩
  else
    match dispatchCriteria ctype primResult with
    | Except.error msg =>
      ⟨0, 1, 0, some "failed", some msg, some (now + ERROR_INTERVAL)⟩
    | Except.ok r =>
      match persistError with
      | some (rows, msg) =>
        ⟨primApiCalls, 1, rows, some "failed", some msg, some (now + ERROR_INTERVAL)⟩
      | none =>
        ⟨primApiCalls, 1, r.matches.length,
          some (if r.satisfied then "success" else "failed"), none,
          some (now + SUCCESS_INTERVAL)⟩

/-- The error, if any, actually thrown inside the runner's inner `try` during
steps 3-4 (dispatch plus persistence). -/
def runThrown (ctype : String) (primResult : ValidationResult)
    (persistError : Option (Nat × String)) : Option String :=
  match dispatchCriteria ctype primResult with
  | Except.error m => some m
  | Except.ok _ => persistError.map (fun p => p.2)

/-! ### Claim C9 — the skip rule -/

/-- C9: when the latest validation record's `nextValidationAt` is strictly in
the future, the sweep skips the quest as a pure no-op — zero Data Client
calls, no new validation or result records, no status update — whatever the
quest's criteria or the outcome executing them would have had. -/
theorem quest_skip_noop (now t : Int) (h : now < t) (ctype : String)
    (primApiCalls : Nat) (primResult : ValidationResult)
    (persistError : Option (Nat × String)) :
    validateSingleQuestModel now (some (some t)) ctype primApiCalls primResult persistError =
      ⟨0, 0, 0, none, none, none⟩ := by
  simp [validateSingleQuestModel, shouldSkip, h]

/-- Closed instantiation of `quest_skip_noop`. -/
theorem quest_skip_noop_witness :
    validateSingleQuestModel 0 (some (some 1)) "swappedFor" 5 ⟨true, [txA]⟩ none =
      ⟨0, 0, 0, none, none, none⟩ :=
  quest_skip_noop 0 1 (by decide) "swappedFor" 5 ⟨true, [txA]⟩ none

/-! ### Claim C4 — error backoff -/

/-- C4 counterexample: a forced upstream Data Client failure during criteria
evaluation does NOT reach the runner's error path — the primitive swallows it
and resolves with `satisfied = false` — so the runner records `failed` with
`nextValidationAt = now + SUCCESS_INTERVAL`: exactly the time the same
scenario without the failure gets, and not the strictly later
`now + ERROR_INTERVAL` the claim asserts. -/
theorem upstream_failure_gets_success_interval :
    (validateSingleQuestModel 0 none "swappedFor" 1
        (swappedForExecute ["T"] fun _ => Except.error "network down") none).finalStatus =
      some "failed" ∧
    (validateSingleQuestModel 0 none "swappedFor" 1
        (swappedForExecute ["T"] fun _ => Except.error "network down") none).finalNextValidationAt =
      some (0 + SUCCESS_INTERVAL) ∧
    (validateSingleQuestModel 0 none "swappedFor" 1 ⟨true, [txA]⟩ none).finalNextValidationAt =
      some (0 + SUCCESS_INTERVAL) ∧
    (validateSingleQuestModel 0 none "swappedFor" 1
        (swappedForExecute ["T"] fun _ => Except.error "network down") none).finalNextValidationAt ≠
      some (0 + ERROR_INTERVAL) := by
  decide

/-- C4 (amended): when an error is actually thrown inside the runner's inner
`try` while validating a quest — an unsupported criteria type or a
persistence failure; upstream Data Client failures never throw there because
the primitives catch them — the runner records `failed` with the captured
message and `nextValidationAt = now + ERROR_INTERVAL`, which is strictly
later than the `now + SUCCESS_INTERVAL` recorded on every non-throwing path. -/
theorem runner_error_backoff (now : Int) (lastNext : Option (Option Int))
    (ctype : String) (primApiCalls : Nat) (primResult : ValidationResult)
    (persistError : Option (Nat × String)) (msg : String)
    (hrun : shouldSkip now lastNext = false)
    (herr : runThrown ctype primResult persistError = some msg) :
    (validateSingleQuestModel now lastNext ctype primApiCalls primResult
        persistError).finalStatus = some "failed" ∧
    (validateSingleQuestModel now lastNext ctype primApiCalls primResult
        persistError).finalError = some msg ∧
    (validateSingleQuestModel now lastNext ctype primApiCalls primResult
        persistError).finalNextValidationAt = some (now + ERROR_INTERVAL) ∧
    now + SUCCESS_INTERVAL < now + ERROR_INTERVAL := by
  unfold runThrown at herr
  unfold validateSingleQuestModel
  simp only [hrun, Bool.false_eq_true, if_false]
  cases hd : dispatchCriteria ctype primResult with
  | error m =>
    rw [hd] at herr
    simp only [Option.some.injEq] at herr
    subst herr
    exact ⟨rfl, rfl, rfl, by simp [SUCCESS_INTERVAL, ERROR_INTERVAL]⟩
  | ok r =>
    rw [hd] at herr
    cases hp : persistError with
    | none => rw [hp] at herr; simp at herr
    | some p =>
      obtain ⟨rows, m⟩ := p
      rw [hp] at herr
      simp only [Option.map, Option.some.injEq] at herr
      subst herr
      exact ⟨rfl, rfl, rfl, by simp [SUCCESS_INTERVAL, ERROR_INTERVAL]⟩

/-- Closed instantiation of `runner_error_backoff`. -/
theorem runner_error_backoff_witness :
    (validateSingleQuestModel 0 none "bogus" 0 ⟨false, []⟩ none).finalNextValidationAt =
      some (0 + ERROR_INTERVAL) :=
  (runner_error_backoff 0 none "bogus" 0 ⟨false, []⟩ none
    "Unsupported criteria type: bogus" rfl (by decide)).2.2.1

/-! ### Claim C8 — per-quest isolation in a sweep -/

/-- Inputs of one quest in a sweep: the outcome of the latest-validation store
read (`getLatestQuestValidation`, validator.ts line 83 — performed OUTSIDE
both try blocks), plus the abstract per-quest inputs of
`validateSingleQuestModel`. -/
structure QuestInput where
  storeRead : Except String (Option (Option Int))
  ctype : String
  primApiCalls : Nat
  primResult : ValidationResult
  persistError : Option (Nat × String)
deriving Repr

/-- `validateSingleQuest` as seen by the sweep loop: it rejects exactly when
the latest-validation store read rejects; every other failure is caught
inside (validator.ts lines 94-263) and becomes a recorded effect. -/
def validateSingleQuestF (now : Int) (q : QuestInput) : Except String StepEffects :=
  match q.storeRead with
  | Except.error e => Except.error e
  | Except.ok lastNext =>
    Except.ok (validateSingleQuestModel now lastNext q.ctype q.primApiCalls
      q.primResult q.persistError)

/-- The sweep loop `validateAllActiveQuests` (validator.ts lines 41-48):
awaits each quest in order; an uncaught rejection aborts the remaining
quests. -/
def sweepModel (now : Int) : List QuestInput → Except String (List StepEffects)
  | [] => Except.ok []
  | q :: rest =>
    match validateSingleQuestF now q with
    | Except.error e => Except.error e
    | Except.ok eff =>
      match sweepModel now rest with
      | Except.error e => Except.error e
      | Except.ok effs => Except.ok (eff :: effs)

/-- C8 counterexample: a store failure while reading quest 1's latest
validation record (the skip check, made outside both try blocks) rejects
`validateSingleQuest` and aborts the sweep — quest 2 is never validated —
contradicting "a failure while validating one quest never aborts validation
of the remaining quests". -/
theorem sweep_aborts_on_store_read_failure :
    sweepModel 0
      [⟨Except.error "db down", "swappedFor", 0, ⟨false, []⟩, none⟩,
       ⟨Except.ok none, "swappedFor", 0, ⟨true, [txA]⟩, none⟩] =
      Except.error "db down" := by
  rfl

/-- When every latest-validation store read succeeds, the sweep produces one
effect record per quest, whatever each quest's validation outcome. -/
theorem sweepModel_total (now : Int) (qs : List QuestInput) :
    (∀ q ∈ qs, ∃ ln, q.storeRead = Except.ok ln) →
    ∃ effs : List StepEffects, sweepModel now qs = Except.ok effs ∧
      effs.length = qs.length := by
  induction qs with
  | nil => exact fun _ => ⟨[], rfl, rfl⟩
  | cons q rest ih =>
    intro hok
    obtain ⟨ln, hln⟩ := hok q (List.mem_cons_self q rest)
    obtain ⟨effs, heffs, hlen⟩ := ih (fun p hp => hok p (List.mem_cons_of_mem q hp))
    refine ⟨validateSingleQuestModel now ln q.ctype q.primApiCalls q.primResult
      q.persistError :: effs, ?_, by simp [hlen]⟩
    simp [sweepModel, validateSingleQuestF, hln, heffs]

/-- C8 (amended): an unsupported `criteria.type` degrades through the generic
per-quest error path — a `failed` record with the error backoff, not a crash
— and whenever every per-quest latest-validation store read succeeds, the
sweep validates every quest (one effect record per quest), so a validation
failure in one quest never aborts the remaining ones; only a store failure in
the latest-validation read itself, which sits outside the per-quest try
blocks, aborts the sweep (see the counterexample). -/
theorem sweep_isolation_spec (now : Int) (qs : List QuestInput)
    (ctype : String) (lastNext : Option (Option Int))
    (primApiCalls : Nat) (primResult : ValidationResult)
    (hunsupported : supportedCriteriaTypes.contains ctype = false)
    (hnoskip : shouldSkip now lastNext = false)
    (hok : ∀ q ∈ qs, ∃ ln, q.storeRead = Except.ok ln) :
    (validateSingleQuestF now ⟨Except.ok lastNext, ctype, primApiCalls, primResult, none⟩ =
      Except.ok ⟨0, 1, 0, some "failed",
        some ("Unsupported criteria type: " ++ ctype), some (now + ERROR_INTERVAL)⟩) ∧
    ∃ effs : List StepEffects, sweepModel now qs = Except.ok effs ∧
      effs.length = qs.length := by
  refine ⟨?_, sweepModel_total now qs hok⟩
  have hmem : ctype ∉ supportedCriteriaTypes := by simpa using hunsupported
  simp [validateSingleQuestF, validateSingleQuestModel, hnoskip, dispatchCriteria, hmem]

/-- Closed instantiation of `sweep_isolation_spec`. -/
theorem sweep_isolation_spec_witness :
    ∃ effs : List StepEffects,
      sweepModel 0 [⟨Except.ok none, "bogus", 0, ⟨false, []⟩, none⟩] = Except.ok effs ∧
      effs.length = [(⟨Except.ok none, "bogus", 0, ⟨false, []⟩, none⟩ : QuestInput)].length :=
  (sweep_isolation_spec 0 [⟨Except.ok none, "bogus", 0, ⟨false, []⟩, none⟩]
    "bogus" none 0 ⟨false, []⟩ (by decide) rfl
    (fun q hq => by rw [List.mem_singleton.mp hq]; exact ⟨none, rfl⟩)).2

end Innkeeper
